import Mathlib

set_option linter.unusedSectionVars false
set_option linter.unusedVariables false

/-!
Shallow embedding of `expiringdict` (file `expiringdict/__init__.py`).

The Python class `ExpiringDict(OrderedDict)` stores each dict value as a
pair `(value, created_time)`.  We model the underlying `OrderedDict` as an
ordered association list `List (K × V × Int)` (key, value, created_at),
where insertion order is the list order (head = oldest inserted).
Timestamps and `max_age` are integers (`time.time()` is modelled as an
arbitrary `Int` supplied to each operation as `now`).

Python exceptions are modelled explicitly: `KeyError` raised out of an
operation becomes an `Except`/`Option` failure value, and the post-state of
the structure (which may have been mutated before the raise) is always
returned alongside.
-/

namespace ExpDict

variable {K V : Type} [DecidableEq K]

/-- The state of an `ExpiringDict`: the underlying ordered mapping plus the
two configuration limits set in `__init__` (`self.max_age`, `self.max_len`).
`max_len = none` models Python `None` (unbounded). -/
structure EDict (K V : Type) where
  entries : List (K × V × Int)
  max_age : Int
  max_len : Option Nat
deriving Repr, DecidableEq

/-- Plain `OrderedDict.__getitem__`: first binding of `k`, no expiry check.
Returns the stored `(value, created_at)` pair, `none` models `KeyError`. -/
def od_getitem : List (K × V × Int) → K → Option (V × Int)
  | [], _ => none
  | e :: rest, k => if e.1 = k then some e.2 else od_getitem rest k

/-- Plain `OrderedDict.__delitem__` (the class does not override `del`):
removes the first binding of `k`; absent keys are untouched (in the source
`del self[key]` is only reached after a successful raw lookup). -/
def od_delitem : List (K × V × Int) → K → List (K × V × Int)
  | [], _ => []
  | e :: rest, k => if e.1 = k then rest else e :: od_delitem rest k

/-- Plain `OrderedDict.__setitem__` on the underlying mapping: an existing
key keeps its position in the order and gets its stored pair replaced; a
new key is appended at the newest end. -/
def od_setitem : List (K × V × Int) → K → V → Int → List (K × V × Int)
  | [], k, v, t => [(k, v, t)]
  | e :: rest, k, v, t =>
      if e.1 = k then (k, v, t) :: rest else e :: od_setitem rest k v t

/-- The eviction loop in `__setitem__`:
`while len(self) > self.max_len: self.popitem(last=False)`.
`popitem(last=False)` removes the oldest (head) entry.  The loop runs while
the length strictly exceeds `max_len`. -/
def capacityEvict : List (K × V × Int) → Nat → List (K × V × Int)
  | [], _ => []
  | e :: rest, m =>
      if (e :: rest).length > m then capacityEvict rest m else e :: rest

/-- `ExpiringDict.__setitem__(key, value)`: when `max_len` is finite, first
run the eviction loop, then store `(value, time.time())` via the plain
ordered-dict assignment. -/
def setitem (d : EDict K V) (k : K) (v : V) (now : Int) : EDict K V :=
  let entries1 :=
    match d.max_len with
    | some m => capacityEvict d.entries m
    | none => d.entries
  { d with entries := od_setitem entries1 k v now }

/-- `ExpiringDict.__contains__(key)`: raw lookup; fresh entries answer
`True`; an expired entry is deleted and the answer is `False`; a missing
key answers `False` (the `KeyError` is swallowed).  Returns the answer and
the post-state. -/
def edContains (d : EDict K V) (k : K) (now : Int) : Bool × EDict K V :=
  match od_getitem d.entries k with
  | some item =>
      if now - item.2 < d.max_age then (true, d)
      else (false, { d with entries := od_delitem d.entries k })
  | none => (false, d)

/-- Core of `ExpiringDict.__getitem__(key, with_age)`: raw lookup, compute
`item_age = time.time() - item[1]`; fresh entries return the value and
age; an expired entry is deleted and `KeyError` is raised (modelled by
`none`); a missing key raises `KeyError` from the raw lookup.  The
`with_age` flag only selects which projection the caller receives, so it is
applied by the wrappers below. -/
def getitem (d : EDict K V) (k : K) (now : Int) :
    Option (V × Int) × EDict K V :=
  match od_getitem d.entries k with
  | some item =>
      let item_age := now - item.2
      if item_age < d.max_age then (some (item.1, item_age), d)
      else (none, { d with entries := od_delitem d.entries k })
  | none => (none, d)

/-- The shape of what Python's `get` returns: either a bare value (the
stored value or the default) or, when `with_age=True`, a pair of the value
and an age (`None` ages and `None` defaults are `Option.none`). -/
inductive GetResult (V : Type) where
  | bare (v : Option V)
  | withAge (v : Option V) (age : Option Int)
deriving Repr, DecidableEq

/-- `ExpiringDict.get(key, default, with_age)`: delegate to `__getitem__`;
a `KeyError` is caught and turned into `(default, None)` when `with_age`
else `default`. -/
def get (d : EDict K V) (k : K) (default : Option V) (with_age : Bool)
    (now : Int) : GetResult V × EDict K V :=
  match getitem d k now with
  | (some (v, age), d2) =>
      (if with_age then .withAge (some v) (some age) else .bare (some v), d2)
  | (none, d2) =>
      (if with_age then .withAge default none else .bare default, d2)

/-- `ExpiringDict.pop(key, default)`: raw lookup with no expiry check; if
the key is physically present, delete it and return the stored value,
otherwise return the default (`KeyError` is caught).  Note this method
never consults the clock, so no `now` argument exists. -/
def pop (d : EDict K V) (k : K) (default : Option V) :
    Option V × EDict K V :=
  match od_getitem d.entries k with
  | some item => (some item.1, { d with entries := od_delitem d.entries k })
  | none => (default, d)

/-- Python truthiness of `key_age` in `ttl`: `if key_age:` is `False` for
`None` and for a zero age. -/
def pyTruthyAge : Option Int → Bool
  | none => false
  | some a => a != 0

/-- `ExpiringDict.ttl(key)`: calls `self.get(key, with_age=True)` (default
`None`), then `if key_age: key_ttl = self.max_age - key_age; if key_ttl >
0: return key_ttl` and finally `return None`. -/
def ttl (d : EDict K V) (k : K) (now : Int) : Option Int × EDict K V :=
  match get d k none true now with
  | (.withAge _ key_age, d2) =>
      if pyTruthyAge key_age then
        match key_age with
        | some a =>
            let key_ttl := d.max_age - a
            if key_ttl > 0 then (some key_ttl, d2) else (none, d2)
        | none => (none, d2)
      else (none, d2)
  | (.bare _, d2) => (none, d2)

/-- `self._safe_keys()`: a snapshot list of the current keys, taken before
the per-key lookups of `items`/`values`. -/
def safeKeys (d : EDict K V) : List K :=
  d.entries.map Prod.fst

/-- Loop body of `ExpiringDict.items()`: for each snapshot key try
`self[key]` (the expiry-checking `__getitem__`), appending `(key, value)`
on success and swallowing `KeyError` (which has already deleted the expired
entry) otherwise.  The state is threaded because the lookups mutate. -/
def itemsGo (now : Int) : List K → EDict K V → List (K × V) × EDict K V
  | [], d => ([], d)
  | k :: ks, d =>
      match getitem d k now with
      | (some (v, _), d2) =>
          let r := itemsGo now ks d2
          ((k, v) :: r.1, r.2)
      | (none, d2) => itemsGo now ks d2

/-- `ExpiringDict.items()`. -/
def items (d : EDict K V) (now : Int) : List (K × V) × EDict K V :=
  itemsGo now (safeKeys d) d

/-- Loop body of `ExpiringDict.values()`: same as `items` but appending
only the value. -/
def valuesGo (now : Int) : List K → EDict K V → List V × EDict K V
  | [], d => ([], d)
  | k :: ks, d =>
      match getitem d k now with
      | (some (v, _), d2) =>
          let r := valuesGo now ks d2
          (v :: r.1, r.2)
      | (none, d2) => valuesGo now ks d2

/-- `ExpiringDict.values()`. -/
def values (d : EDict K V) (now : Int) : List V × EDict K V :=
  valuesGo now (safeKeys d) d

/-- `ExpiringDict.iterkeys()` / `for k in self`: plain iteration over the
underlying ordered mapping's keys; no lookup, no expiry check, no
mutation, so it is a pure function of the state. -/
def iterkeys (d : EDict K V) : List K :=
  d.entries.map Prod.fst

/-- Loop body of `ExpiringDict.iteritems()` (`for k in self: yield (k,
self[k])`), with the generator fully consumed: `self[k]` dispatches to the
overridden, expiry-checking `__getitem__`, so an expired entry is deleted
and the `KeyError` propagates to the consumer, aborting the iteration
(yields made so far are lost to the exception).  On the fresh path the
state is untouched, so iterating the initial key list is faithful. -/
def iteritemsGo (now : Int) :
    List K → EDict K V → Except Unit (List (K × V)) × EDict K V
  | [], d => (.ok [], d)
  | k :: ks, d =>
      match getitem d k now with
      | (some (v, _), d2) =>
          match iteritemsGo now ks d2 with
          | (.ok r, d3) => (.ok ((k, v) :: r), d3)
          | (.error e, d3) => (.error e, d3)
      | (none, d2) => (.error (), d2)

/-- `ExpiringDict.iteritems()`, fully consumed. -/
def iteritems (d : EDict K V) (now : Int) :
    Except Unit (List (K × V)) × EDict K V :=
  iteritemsGo now (iterkeys d) d

/-- Loop body of `ExpiringDict.itervalues()` (`for k in self: yield
self[k]`), with the generator fully consumed; same exception behaviour as
`iteritemsGo`. -/
def itervaluesGo (now : Int) :
    List K → EDict K V → Except Unit (List V) × EDict K V
  | [], d => (.ok [], d)
  | k :: ks, d =>
      match getitem d k now with
      | (some (v, _), d2) =>
          match itervaluesGo now ks d2 with
          | (.ok r, d3) => (.ok (v :: r), d3)
          | (.error e, d3) => (.error e, d3)
      | (none, d2) => (.error (), d2)

/-- `ExpiringDict.itervalues()`, fully consumed. -/
def itervalues (d : EDict K V) (now : Int) :
    Except Unit (List V) × EDict K V :=
  itervaluesGo now (iterkeys d) d

/-- Python list slice `lst[-n:]` for a non-negative `n` (as produced by
`-self.max_len` and `-(self.max_len - len(kwargs))` in `__init__`):
`lst[-0:]` is `lst[0:]`, the whole list; for `n > 0` it is the last `n`
elements (all of them when `n ≥ len(lst)`). -/
def pySliceLast (l : List α) (n : Nat) : List α :=
  if n = 0 then l else l.drop (l.length - n)

/-- Final `OrderedDict.__init__(self, args)` call of the constructor:
`OrderedDict.__init__` feeds each pair through `self[key] = value`, which
dispatches to the overridden `ExpiringDict.__setitem__`, all at
construction time `now`. -/
def initInsertAll (d : EDict K V) (ps : List (K × V)) (now : Int) :
    EDict K V :=
  ps.foldl (fun acc p => setitem acc p.1 p.2 now) d

/-- `ExpiringDict.__init__(*args, **kwargs)` after popping
`max_age_seconds` and `max_len` from `kwargs`.  `args` is the tuple of
positional arguments (each an iterable of pairs), `kwargs` the remaining
keyword pairs.  Asserts `max_age_seconds >= 0` (`max_len`'s
`isinstance(int) or None` assert is the type `Option Nat`).  Then:
if `max_len` is finite and `len(kwargs) >= max_len`, the batch is
`kwargs.items()[-max_len:]` (Python 2 list slicing); otherwise it is
`list(args[0])[-(max_len - len(kwargs)):] + kwargs.items()` — and
`args[0]` raises `IndexError` when no positional argument was given.
With `max_len = None` the batch is `list(args[0]) + kwargs.items()`,
which also needs `args[0]`. -/
def init (args : List (List (K × V))) (kwargs : List (K × V))
    (max_age : Int) (max_len : Option Nat) (now : Int) :
    Except String (EDict K V) :=
  if max_age < 0 then .error "AssertionError"
  else
    let base : EDict K V :=
      { entries := [], max_age := max_age, max_len := max_len }
    match max_len with
    | some m =>
        if kwargs.length ≥ m then
          .ok (initInsertAll base (pySliceLast kwargs m) now)
        else
          match args with
          | [] => .error "IndexError: tuple index out of range"
          | a0 :: _ =>
              .ok (initInsertAll base
                (pySliceLast a0 (m - kwargs.length) ++ kwargs) now)
    | none =>
        match args with
        | [] => .error "IndexError: tuple index out of range"
        | a0 :: _ => .ok (initInsertAll base (a0 ++ kwargs) now)

theorem od_getitem_cons_self (k : K) (v : V) (t : Int) (l : List (K × V × Int)) :
    od_getitem ((k, v, t) :: l) k = some (v, t) := by
  simp [od_getitem]

theorem od_getitem_cons_ne {e : K × V × Int} {k : K} (h : e.1 ≠ k)
    (l : List (K × V × Int)) :
    od_getitem (e :: l) k = od_getitem l k := by
  simp [od_getitem, h]

theorem od_delitem_cons_ne {e : K × V × Int} {k : K} (h : e.1 ≠ k)
    (l : List (K × V × Int)) :
    od_delitem (e :: l) k = e :: od_delitem l k := by
  simp [od_delitem, h]

theorem od_getitem_eq_none_of_not_mem {l : List (K × V × Int)} {k : K}
    (h : k ∉ l.map Prod.fst) : od_getitem l k = none := by
  induction l with
  | nil => rfl
  | cons e rest ih =>
      simp only [List.map_cons, List.mem_cons, not_or] at h
      rw [od_getitem_cons_ne (fun he => h.1 he.symm)]
      exact ih h.2

theorem od_getitem_delitem_self {l : List (K × V × Int)}
    (hnd : (l.map Prod.fst).Nodup) (k : K) :
    od_getitem (od_delitem l k) k = none := by
  induction l with
  | nil => rfl
  | cons e rest ih =>
      simp only [List.map_cons, List.nodup_cons] at hnd
      by_cases he : e.1 = k
      · subst he
        simp only [od_delitem, if_pos rfl]
        exact od_getitem_eq_none_of_not_mem hnd.1
      · rw [od_delitem_cons_ne he, od_getitem_cons_ne he]
        exact ih hnd.2

theorem od_getitem_setitem_self (l : List (K × V × Int)) (k : K) (v : V)
    (t : Int) : od_getitem (od_setitem l k v t) k = some (v, t) := by
  induction l with
  | nil => simp [od_setitem, od_getitem]
  | cons e rest ih =>
      by_cases he : e.1 = k
      · simp [od_setitem, he, od_getitem]
      · simp only [od_setitem, if_neg he]
        rw [od_getitem_cons_ne he]
        exact ih

theorem od_setitem_map_fst_of_mem {l : List (K × V × Int)} {k : K}
    (h : k ∈ l.map Prod.fst) (v : V) (t : Int) :
    (od_setitem l k v t).map Prod.fst = l.map Prod.fst := by
  induction l with
  | nil => simp at h
  | cons e rest ih =>
      by_cases he : e.1 = k
      · simp [od_setitem, he]
      · simp only [List.map_cons, List.mem_cons] at h
        rcases h with h | h
        · exact absurd h.symm he
        · simp [od_setitem, if_neg he, ih h]

theorem capacityEvict_of_le {l : List (K × V × Int)} {m : Nat}
    (h : l.length ≤ m) : capacityEvict l m = l := by
  cases l with
  | nil => rfl
  | cons e rest =>
      simp only [capacityEvict]
      rw [if_neg (by omega)]

theorem getitem_snd_eta (l : List (K × V × Int)) (a : Int) (m : Option Nat)
    (k : K) (now : Int) :
    (getitem { entries := l, max_age := a, max_len := m } k now).2 =
      { entries :=
          (getitem { entries := l, max_age := a, max_len := m } k now).2.entries,
        max_age := a, max_len := m } := by
  simp only [getitem]
  cases hh : od_getitem l k with
  | none => simp
  | some item =>
      by_cases hf : now - item.2 < a
      · simp [hf]
      · simp [hf]

theorem getitem_cons_ne {e : K × V × Int} {k : K} (h : e.1 ≠ k)
    (l : List (K × V × Int)) (a : Int) (m : Option Nat) (now : Int) :
    getitem { entries := e :: l, max_age := a, max_len := m } k now =
      ((getitem { entries := l, max_age := a, max_len := m } k now).1,
       { entries :=
           e :: (getitem { entries := l, max_age := a, max_len := m } k now).2.entries,
         max_age := a, max_len := m }) := by
  simp only [getitem, od_getitem_cons_ne h, od_delitem_cons_ne h]
  cases hh : od_getitem l k with
  | none => simp
  | some item =>
      by_cases hf : now - item.2 < a
      · simp [hf]
      · simp [hf]

theorem itemsGo_cons_frame (now : Int) (ks : List K) (e : K × V × Int)
    (l : List (K × V × Int)) (a : Int) (m : Option Nat)
    (h : ∀ k ∈ ks, k ≠ e.1) :
    itemsGo now ks { entries := e :: l, max_age := a, max_len := m } =
      ((itemsGo now ks { entries := l, max_age := a, max_len := m }).1,
       { entries :=
           e :: (itemsGo now ks { entries := l, max_age := a, max_len := m }).2.entries,
         max_age := a, max_len := m }) := by
  induction ks generalizing l with
  | nil => simp [itemsGo]
  | cons k ks ih =>
      have hk : e.1 ≠ k := fun hek => (h k (List.mem_cons_self k ks)) hek.symm
      have hks : ∀ k2 ∈ ks, k2 ≠ e.1 := fun k2 hk2 => h k2 (List.mem_cons_of_mem k hk2)
      rw [itemsGo, itemsGo, getitem_cons_ne hk]
      rw [show getitem { entries := l, max_age := a, max_len := m } k now =
            ((getitem { entries := l, max_age := a, max_len := m } k now).1,
             (getitem { entries := l, max_age := a, max_len := m } k now).2) from rfl,
          getitem_snd_eta]
      cases hg : (getitem { entries := l, max_age := a, max_len := m } k now).1 with
      | none => exact ih _ hks
      | some p =>
          obtain ⟨v, age⟩ := p
          simp only
          rw [ih _ hks]

theorem iteritemsGo_cons_frame (now : Int) (ks : List K) (e : K × V × Int)
    (l : List (K × V × Int)) (a : Int) (m : Option Nat)
    (h : ∀ k ∈ ks, k ≠ e.1) :
    iteritemsGo now ks { entries := e :: l, max_age := a, max_len := m } =
      ((iteritemsGo now ks { entries := l, max_age := a, max_len := m }).1,
       { entries :=
           e :: (iteritemsGo now ks
             { entries := l, max_age := a, max_len := m }).2.entries,
         max_age := a, max_len := m }) := by
  induction ks generalizing l with
  | nil => simp [iteritemsGo]
  | cons k ks ih =>
      have hk : e.1 ≠ k := fun hek => (h k (List.mem_cons_self k ks)) hek.symm
      have hks : ∀ k2 ∈ ks, k2 ≠ e.1 := fun k2 hk2 => h k2 (List.mem_cons_of_mem k hk2)
      rw [iteritemsGo, iteritemsGo, getitem_cons_ne hk]
      rw [show getitem { entries := l, max_age := a, max_len := m } k now =
            ((getitem { entries := l, max_age := a, max_len := m } k now).1,
             (getitem { entries := l, max_age := a, max_len := m } k now).2) from rfl,
          getitem_snd_eta]
      cases hg : (getitem { entries := l, max_age := a, max_len := m } k now).1 with
      | none => simp only
      | some p =>
          obtain ⟨v, age⟩ := p
          simp only
          rw [ih _ hks]
          cases hY : iteritemsGo now ks
              { entries :=
                  (getitem { entries := l, max_age := a, max_len := m } k now).2.entries,
                max_age := a, max_len := m } with
          | mk r1 d3 =>
              cases r1 with
              | ok r => simp
              | error err => simp

/-- Specification-side description of the fresh (unexpired) key/value
pairs of an entries list at a given time, used to state what the
snapshot enumerations return. -/
def freshPairs (now a : Int) (l : List (K × V × Int)) : List (K × V) :=
  l.filterMap (fun e => if now - e.2.2 < a then some (e.1, e.2.1) else none)

/-- Specification-side description of the entries surviving a full
snapshot enumeration: exactly the fresh ones, in order. -/
def freshEntries (now a : Int) (l : List (K × V × Int)) : List (K × V × Int) :=
  l.filter (fun e => decide (now - e.2.2 < a))

theorem itemsGo_eq (now a : Int) (m : Option Nat) (l : List (K × V × Int))
    (hnd : (l.map Prod.fst).Nodup) :
    itemsGo now (l.map Prod.fst) { entries := l, max_age := a, max_len := m } =
      (freshPairs now a l,
       { entries := freshEntries now a l, max_age := a, max_len := m }) := by
  induction l with
  | nil => simp [itemsGo, freshPairs, freshEntries]
  | cons e rest ih =>
      simp only [List.map_cons, List.nodup_cons] at hnd
      obtain ⟨k, v, t⟩ := e
      rw [List.map_cons, itemsGo]
      by_cases hf : now - t < a
      · rw [show getitem { entries := (k, v, t) :: rest, max_age := a, max_len := m } k now =
              (some (v, now - t), { entries := (k, v, t) :: rest, max_age := a, max_len := m }) from by
            simp [getitem, od_getitem_cons_self, hf]]
        simp only
        rw [itemsGo_cons_frame now _ _ _ _ _ (fun k2 hk2 => fun hke => hnd.1 (hke ▸ hk2))]
        rw [ih hnd.2]
        simp [freshPairs, freshEntries, hf]
      · rw [show getitem { entries := (k, v, t) :: rest, max_age := a, max_len := m } k now =
              (none, { entries := rest, max_age := a, max_len := m }) from by
            simp [getitem, od_getitem_cons_self, hf, od_delitem]]
        simp only
        rw [ih hnd.2]
        simp [freshPairs, freshEntries, hf]

theorem valuesGo_eq_itemsGo (now : Int) (ks : List K) (d : EDict K V) :
    valuesGo now ks d =
      ((itemsGo now ks d).1.map Prod.snd, (itemsGo now ks d).2) := by
  induction ks generalizing d with
  | nil => simp [valuesGo, itemsGo]
  | cons k ks ih =>
      rw [valuesGo, itemsGo]
      cases hg : getitem d k now with
      | mk r d2 =>
          cases r with
          | none => exact ih d2
          | some p =>
              obtain ⟨v, age⟩ := p
              simp [ih d2]

theorem itervaluesGo_eq_iteritemsGo (now : Int) (ks : List K) (d : EDict K V) :
    itervaluesGo now ks d =
      (Except.map (List.map Prod.snd) (iteritemsGo now ks d).1,
       (iteritemsGo now ks d).2) := by
  induction ks generalizing d with
  | nil => simp [itervaluesGo, iteritemsGo, Except.map]
  | cons k ks ih =>
      rw [itervaluesGo, iteritemsGo]
      cases hg : getitem d k now with
      | mk r d2 =>
          cases r with
          | none => simp [Except.map]
          | some p =>
              obtain ⟨v, age⟩ := p
              simp only
              rw [ih d2]
              cases hY : iteritemsGo now ks d2 with
              | mk r1 d3 =>
                  cases r1 with
                  | ok r2 => simp [Except.map]
                  | error err => simp [Except.map]

theorem iteritemsGo_all_fresh (now a : Int) (m : Option Nat)
    (l : List (K × V × Int)) (hnd : (l.map Prod.fst).Nodup)
    (hf : ∀ e ∈ l, now - e.2.2 < a) :
    iteritemsGo now (l.map Prod.fst) { entries := l, max_age := a, max_len := m } =
      (.ok (l.map (fun e => (e.1, e.2.1))),
       { entries := l, max_age := a, max_len := m }) := by
  induction l with
  | nil => simp [iteritemsGo]
  | cons e rest ih =>
      simp only [List.map_cons, List.nodup_cons] at hnd
      obtain ⟨k, v, t⟩ := e
      have hfe : now - t < a := hf (k, v, t) (List.mem_cons_self _ _)
      rw [List.map_cons, iteritemsGo]
      rw [show getitem { entries := (k, v, t) :: rest, max_age := a, max_len := m } k now =
            (some (v, now - t), { entries := (k, v, t) :: rest, max_age := a, max_len := m }) from by
          simp [getitem, od_getitem_cons_self, hfe]]
      simp only
      rw [iteritemsGo_cons_frame now _ _ _ _ _ (fun k2 hk2 => fun hke => hnd.1 (hke ▸ hk2))]
      rw [ih hnd.2 (fun e2 he2 => hf e2 (List.mem_cons_of_mem _ he2))]
      simp

theorem iteritemsGo_exists_expired (now a : Int) (m : Option Nat)
    (l : List (K × V × Int)) (hnd : (l.map Prod.fst).Nodup)
    (hx : ∃ e ∈ l, a ≤ now - e.2.2) :
    (iteritemsGo now (l.map Prod.fst)
        { entries := l, max_age := a, max_len := m }).1 = .error () := by
  induction l with
  | nil => simp at hx
  | cons e rest ih =>
      simp only [List.map_cons, List.nodup_cons] at hnd
      obtain ⟨k, v, t⟩ := e
      rw [List.map_cons, iteritemsGo]
      by_cases hf : now - t < a
      · rw [show getitem { entries := (k, v, t) :: rest, max_age := a, max_len := m } k now =
              (some (v, now - t), { entries := (k, v, t) :: rest, max_age := a, max_len := m }) from by
            simp [getitem, od_getitem_cons_self, hf]]
        simp only
        rw [iteritemsGo_cons_frame now _ _ _ _ _ (fun k2 hk2 => fun hke => hnd.1 (hke ▸ hk2))]
        have hx2 : ∃ e2 ∈ rest, a ≤ now - e2.2.2 := by
          rcases hx with ⟨e2, he2, hex⟩
          rcases List.mem_cons.mp he2 with h1 | h1
          · subst h1; simp at hex; omega
          · exact ⟨e2, h1, hex⟩
        cases hY : iteritemsGo now (List.map Prod.fst rest)
            { entries := rest, max_age := a, max_len := m } with
        | mk r1 d3 =>
            have hr1 : r1 = Except.error () := by
              have h2 := ih hnd.2 hx2
              rw [hY] at h2
              exact h2
            subst hr1
            simp
      · rw [show getitem { entries := (k, v, t) :: rest, max_age := a, max_len := m } k now =
              (none, { entries := rest, max_age := a, max_len := m }) from by
            simp [getitem, od_getitem_cons_self, hf, od_delitem]]

/-- C1: the claim states that construction with only the configuration
limits and no initial key/value batch succeeds and yields an empty map.
In the source, `__init__` with no positional argument reaches
`list(args[0])`, and `args[0]` raises `IndexError` on the empty argument
tuple — the module docstring's own example
`ExpiringDict(max_len=100, max_age_seconds=10)` is exactly such a call.
This theorem evaluates the constructor at that input (and at
`max_len=None`): both raise instead of building an empty map. -/
theorem init_no_batch_raises :
    init ([] : List (List (Nat × Nat))) [] 10 (some 100) 0 =
      Except.error "IndexError: tuple index out of range" ∧
    init ([] : List (List (Nat × Nat))) [] 10 none 0 =
      Except.error "IndexError: tuple index out of range" :=
  ⟨rfl, rfl⟩

/-- C2: the claim states the entry count is at most `max_len` immediately
after every `Set`.  The eviction loop runs `while len(self) > max_len`
BEFORE the insertion, so inserting a new key into a map already holding
`max_len` entries leaves `max_len + 1` entries.  With `max_len = 1`, after
`Set(1,10)` then `Set(2,20)` the map physically holds 2 entries. -/
theorem setitem_exceeds_max_len :
    ((setitem (setitem
        ({ entries := [], max_age := 60, max_len := some 1 } : EDict Nat Nat)
        1 10 0) 2 20 1).entries.length = 2) ∧
    ¬ ((setitem (setitem
        ({ entries := [], max_age := 60, max_len := some 1 } : EDict Nat Nat)
        1 10 0) 2 20 1).entries.length ≤ 1) := by
  decide

/-- C5: the claim states `ttl` returns `max_age - age` whenever the key is
present, unexpired and the remainder is positive.  The code's
`if key_age:` truthiness test treats an age of exactly 0 like `None`, so a
key set at time 100 and queried at time 100 (present, not expired,
remaining time 60 > 0) yields `None` instead of 60. -/
theorem ttl_zero_age_none :
    od_getitem (setitem
        ({ entries := [], max_age := 60, max_len := none } : EDict Nat Nat)
        1 7 100).entries 1 = some (7, 100) ∧
    ((100 : Int) - 100 < 60 ∧ (60 : Int) - (100 - 100) > 0) ∧
    (ttl (setitem
        ({ entries := [], max_age := 60, max_len := none } : EDict Nat Nat)
        1 7 100) 1 100).1 = none := by
  decide

/-- C3 counterexample: after `Set(1,10)` at t=0, `Set(2,20)` at t=1 and a
re-assignment `Set(1,11)` at t=2, key 1 has its timestamp reset to 2 but
is still FIRST in the order (`OrderedDict.__setitem__` updates an existing
key in place): the claim would require key 1 to be last
(most-recently-inserted), i.e. `getLast? = some 1`. -/
theorem setitem_no_move :
    od_getitem (setitem (setitem (setitem
        ({ entries := [], max_age := 100, max_len := none } : EDict Nat Nat)
        1 10 0) 2 20 1) 1 11 2).entries 1 = some (11, 2) ∧
    (setitem (setitem (setitem
        ({ entries := [], max_age := 100, max_len := none } : EDict Nat Nat)
        1 10 0) 2 20 1) 1 11 2).entries.map Prod.fst = [1, 2] ∧
    ¬ ((setitem (setitem (setitem
        ({ entries := [], max_age := 100, max_len := none } : EDict Nat Nat)
        1 10 0) 2 20 1) 1 11 2).entries.map Prod.fst).getLast? = some 1 := by
  decide

/-- C3 (amended): re-assigning a key that is already present resets the
entry's creation timestamp to the current time (restarting the expiration
clock) but does NOT move the key: provided the map is within `max_len` (so
the pre-insertion eviction loop does not fire), the key order — and hence
the key's capacity-eviction position — is exactly as before. -/
theorem setitem_refresh_keeps_position (d : EDict K V) (k : K) (v : V)
    (now : Int) (hmem : k ∈ d.entries.map Prod.fst)
    (hlen : ∀ m ∈ d.max_len, d.entries.length ≤ m) :
    (setitem d k v now).entries.map Prod.fst = d.entries.map Prod.fst ∧
    od_getitem (setitem d k v now).entries k = some (v, now) := by
  obtain ⟨l, a, m⟩ := d
  simp only at hmem hlen
  cases m with
  | none =>
      simp only [setitem]
      exact ⟨od_setitem_map_fst_of_mem hmem v now,
        od_getitem_setitem_self l k v now⟩
  | some mm =>
      simp only [setitem]
      rw [capacityEvict_of_le (hlen mm rfl)]
      exact ⟨od_setitem_map_fst_of_mem hmem v now,
        od_getitem_setitem_self l k v now⟩

/-- Witness for the amended C3 theorem at a concrete input. -/
theorem setitem_refresh_keeps_position_witness :
    (setitem ({ entries := [(1, 10, 0), (2, 20, 1)], max_age := 100, max_len := none } : EDict Nat Nat) 1 11 2).entries.map Prod.fst =
      ({ entries := [(1, 10, 0), (2, 20, 1)], max_age := 100, max_len := none } : EDict Nat Nat).entries.map Prod.fst ∧
    od_getitem (setitem ({ entries := [(1, 10, 0), (2, 20, 1)], max_age := 100, max_len := none } : EDict Nat Nat) 1 11 2).entries 1 = some (11, 2) :=
  setitem_refresh_keeps_position
    ({ entries := [(1, 10, 0), (2, 20, 1)], max_age := 100, max_len := none } : EDict Nat Nat)
    1 11 2 (by decide) (by intro m hm; cases hm)

/-- C4 counterexample: on a map whose single entry is expired, plain
iteration over the (key, value) pairs raises (the expiry-checking
`self[k]` lookup deletes the entry and `KeyError` propagates out of the
generator) and mutates the map — contradicting the claim that plain
pair/value iteration performs no expiration check, never raises and
leaves the map unchanged. -/
theorem iteritems_raises :
    (iteritems ({ entries := [(1, 10, 0)], max_age := 60, max_len := none } : EDict Nat Nat) 60).1 = .error () ∧
    (iteritems ({ entries := [(1, 10, 0)], max_age := 60, max_len := none } : EDict Nat Nat) 60).2.entries = [] ∧
    (itervalues ({ entries := [(1, 10, 0)], max_age := 60, max_len := none } : EDict Nat Nat) 60).1 = .error () :=
  ⟨rfl, rfl, rfl⟩

/-- C4 (amended): raw KEY iteration (`iterkeys` / `for k in self`) indeed
performs no expiration check and no eviction: it enumerates the physical
keys, expired entries included, never raises, and — being a pure function
of the state — leaves the map unchanged.  Pair and value iteration
(`iteritems` / `itervalues`), however, fetch every key through the
expiry-checking `__getitem__`: on an all-fresh map they enumerate the
physical contents and leave the map unchanged, but as soon as any entry
is expired they delete the expired entry reached and raise `KeyError`. -/
theorem raw_iteration (d : EDict K V) (now : Int)
    (hnd : (d.entries.map Prod.fst).Nodup) :
    iterkeys d = d.entries.map Prod.fst ∧
    ((∀ e ∈ d.entries, now - e.2.2 < d.max_age) →
       iteritems d now = (.ok (d.entries.map (fun e => (e.1, e.2.1))), d) ∧
       itervalues d now = (.ok (d.entries.map (fun e => e.2.1)), d)) ∧
    ((∃ e ∈ d.entries, d.max_age ≤ now - e.2.2) →
       (iteritems d now).1 = .error () ∧ (itervalues d now).1 = .error ()) := by
  obtain ⟨l, a, m⟩ := d
  simp only at hnd
  refine ⟨rfl, ?_, ?_⟩
  · intro hf
    simp only at hf
    have h1 := iteritemsGo_all_fresh now a m l hnd hf
    constructor
    · exact h1
    · show itervaluesGo now (l.map Prod.fst) _ = _
      rw [itervaluesGo_eq_iteritemsGo]
      rw [show iteritemsGo now (List.map Prod.fst l) { entries := l, max_age := a, max_len := m } =
            (.ok (l.map (fun e => (e.1, e.2.1))), { entries := l, max_age := a, max_len := m }) from h1]
      simp [Except.map, List.map_map, Function.comp]
  · intro hx
    simp only at hx
    have h1 := iteritemsGo_exists_expired now a m l hnd hx
    constructor
    · exact h1
    · show (itervaluesGo now (l.map Prod.fst) _).1 = _
      rw [itervaluesGo_eq_iteritemsGo]
      rw [show (iteritemsGo now (List.map Prod.fst l) { entries := l, max_age := a, max_len := m }).1 =
            Except.error () from h1]
      rfl

/-- Witness for the amended C4 theorem: a two-entry map, one fresh and one
expired, at both a time when all entries are fresh and one where the
second is expired. -/
theorem raw_iteration_witness :
    iterkeys ({ entries := [(1, 10, 0), (2, 20, 50)], max_age := 60, max_len := none } : EDict Nat Nat) = [1, 2] ∧
    iteritems ({ entries := [(1, 10, 0), (2, 20, 50)], max_age := 60, max_len := none } : EDict Nat Nat) 55 =
      (.ok [(1, 10), (2, 20)], { entries := [(1, 10, 0), (2, 20, 50)], max_age := 60, max_len := none }) ∧
    (iteritems ({ entries := [(1, 10, 0), (2, 20, 50)], max_age := 60, max_len := none } : EDict Nat Nat) 61).1 = .error () := by
  have h55 := raw_iteration ({ entries := [(1, 10, 0), (2, 20, 50)], max_age := 60, max_len := none } : EDict Nat Nat) 55 (by decide)
  have h61 := raw_iteration ({ entries := [(1, 10, 0), (2, 20, 50)], max_age := 60, max_len := none } : EDict Nat Nat) 61 (by decide)
  refine ⟨h55.1, ?_, ?_⟩
  · have := (h55.2.1 (by decide)).1
    simpa using this
  · exact (h61.2.2 ⟨(1, 10, 0), by decide, by decide⟩).1

/-- C6: `pop(key, default)` performs a RAW lookup (no clock is consulted —
the function takes no time argument), so for every physically present
binding, expired or not, it returns the stored value and deletes the
entry; for an absent key it returns the default and leaves the map
unchanged (the `KeyError` is swallowed, never surfaced). -/
theorem pop_ignores_expiration (d : EDict K V) (k : K) (default : Option V)
    (hnd : (d.entries.map Prod.fst).Nodup) :
    (∀ v t, od_getitem d.entries k = some (v, t) →
       (pop d k default).1 = some v ∧
       (pop d k default).2.entries = od_delitem d.entries k ∧
       od_getitem (pop d k default).2.entries k = none) ∧
    (od_getitem d.entries k = none → pop d k default = (default, d)) := by
  constructor
  · intro v t h
    refine ⟨by simp [pop, h], by simp [pop, h], ?_⟩
    have h2 : (pop d k default).2.entries = od_delitem d.entries k := by
      simp [pop, h]
    rw [h2]
    exact od_getitem_delitem_self hnd k
  · intro h
    simp [pop, h]

/-- Witness for C6: popping the expired key 1 (created at 0, `max_age`
60, any later clock) still returns the stored value 10 and removes the
binding; popping the absent key 9 returns the default. -/
theorem pop_ignores_expiration_witness :
    (pop ({ entries := [(1, 10, 0)], max_age := 60, max_len := none } : EDict Nat Nat) 1 (some 99)).1 = some 10 ∧
    od_getitem (pop ({ entries := [(1, 10, 0)], max_age := 60, max_len := none } : EDict Nat Nat) 1 (some 99)).2.entries 1 = none ∧
    pop ({ entries := [(1, 10, 0)], max_age := 60, max_len := none } : EDict Nat Nat) 9 (some 99) = (some 99, { entries := [(1, 10, 0)], max_age := 60, max_len := none }) := by
  have h := pop_ignores_expiration ({ entries := [(1, 10, 0)], max_age := 60, max_len := none } : EDict Nat Nat) 1 (some 99) (by decide)
  have h9 := pop_ignores_expiration ({ entries := [(1, 10, 0)], max_age := 60, max_len := none } : EDict Nat Nat) 9 (some 99) (by decide)
  exact ⟨(h.1 10 0 (by decide)).1, (h.1 10 0 (by decide)).2.2, h9.2 (by decide)⟩

/-- C7: the age invariant.  `Set(k, v)` at time `t` stores the binding
`(v, t)`; and in ANY later state in which `k`'s binding is still `(v, t)`
(i.e. no intervening operation has touched `k` — re-set it, removed it or
evicted it), `Get(k)` at query time `q ≥ t` returns `v` while
`q - t < max_age`, and returns the not-found result once
`q ≥ t + max_age` (in particular, with `max_age = 0`, at every `q ≥ t`). -/
theorem age_invariant (d : EDict K V) (k : K) (v : V) (t q : Int)
    (hq : t ≤ q) :
    od_getitem (setitem d k v t).entries k = some (v, t) ∧
    (∀ d2 : EDict K V, od_getitem d2.entries k = some (v, t) →
       (q - t < d2.max_age →
          (get d2 k none false q).1 = GetResult.bare (some v)) ∧
       (t + d2.max_age ≤ q →
          (get d2 k none false q).1 = GetResult.bare none)) := by
  constructor
  · simp only [setitem]
    exact od_getitem_setitem_self _ k v t
  · intro d2 hbind
    constructor
    · intro hfresh
      simp [get, getitem, hbind, hfresh]
    · intro hexp
      have hnf : ¬ (q - t < d2.max_age) := by omega
      simp [get, getitem, hbind, hnf]

/-- Witness for C7: key 1 set at t = 0 with `max_age = 60` is read back at
q = 59 and gone at q = 60. -/
theorem age_invariant_witness :
    od_getitem (setitem ({ entries := [], max_age := 60, max_len := none } : EDict Nat Nat) 1 5 0).entries 1 = some (5, 0) ∧
    (get (setitem ({ entries := [], max_age := 60, max_len := none } : EDict Nat Nat) 1 5 0) 1 none false 59).1 = GetResult.bare (some 5) ∧
    (get (setitem ({ entries := [], max_age := 60, max_len := none } : EDict Nat Nat) 1 5 0) 1 none false 60).1 = GetResult.bare none := by
  have h59 := age_invariant ({ entries := [], max_age := 60, max_len := none } : EDict Nat Nat) 1 5 0 59 (by decide)
  have h60 := age_invariant ({ entries := [], max_age := 60, max_len := none } : EDict Nat Nat) 1 5 0 60 (by decide)
  exact ⟨h59.1, (h59.2 _ h59.1).1 (by decide), (h60.2 _ h60.1).2 (by decide)⟩

/-- C8: `key in d` is expiration-aware with lazy cleanup: it answers
`true` exactly when `k` is physically present with an unexpired binding;
a present-but-expired binding is deleted during the call (afterwards `k`
no longer resolves) and the call answers `false`; an absent key answers
`false` with the state untouched (no exception escapes). -/
theorem contains_expiry_aware (d : EDict K V) (k : K) (now : Int)
    (hnd : (d.entries.map Prod.fst).Nodup) :
    ((edContains d k now).1 = true ↔
       ∃ p, od_getitem d.entries k = some p ∧ now - p.2 < d.max_age) ∧
    (∀ p, od_getitem d.entries k = some p → d.max_age ≤ now - p.2 →
       (edContains d k now).1 = false ∧
       (edContains d k now).2.entries = od_delitem d.entries k ∧
       od_getitem (edContains d k now).2.entries k = none) ∧
    (od_getitem d.entries k = none → edContains d k now = (false, d)) := by
  refine ⟨?_, ?_, ?_⟩
  · constructor
    · intro h
      cases hp : od_getitem d.entries k with
      | none => simp [edContains, hp] at h
      | some p =>
          by_cases hf : now - p.2 < d.max_age
          · exact ⟨p, rfl, hf⟩
          · simp [edContains, hp, hf] at h
    · rintro ⟨p, hp, hf⟩
      simp [edContains, hp, hf]
  · intro p hp hexp
    have hnf : ¬ (now - p.2 < d.max_age) := by omega
    refine ⟨by simp [edContains, hp, hnf], by simp [edContains, hp, hnf], ?_⟩
    have h2 : (edContains d k now).2.entries = od_delitem d.entries k := by
      simp [edContains, hp, hnf]
    rw [h2]
    exact od_getitem_delitem_self hnd k
  · intro h
    simp [edContains, h]

/-- Witness for C8: key 1 created at 0 with `max_age` 60 is a member at
time 59; at time 60 membership is `false` and the entry is removed; key 9
is absent and the state is untouched. -/
theorem contains_expiry_aware_witness :
    (edContains ({ entries := [(1, 10, 0)], max_age := 60, max_len := none } : EDict Nat Nat) 1 59).1 = true ∧
    (edContains ({ entries := [(1, 10, 0)], max_age := 60, max_len := none } : EDict Nat Nat) 1 60).1 = false ∧
    od_getitem (edContains ({ entries := [(1, 10, 0)], max_age := 60, max_len := none } : EDict Nat Nat) 1 60).2.entries 1 = none ∧
    edContains ({ entries := [(1, 10, 0)], max_age := 60, max_len := none } : EDict Nat Nat) 9 60 = (false, { entries := [(1, 10, 0)], max_age := 60, max_len := none }) := by
  have h59 := contains_expiry_aware ({ entries := [(1, 10, 0)], max_age := 60, max_len := none } : EDict Nat Nat) 1 59 (by decide)
  have h60 := contains_expiry_aware ({ entries := [(1, 10, 0)], max_age := 60, max_len := none } : EDict Nat Nat) 1 60 (by decide)
  have h9 := contains_expiry_aware ({ entries := [(1, 10, 0)], max_age := 60, max_len := none } : EDict Nat Nat) 9 60 (by decide)
  refine ⟨h59.1.mpr ⟨(10, 0), by decide, by decide⟩, ?_, ?_, h9.2.2 (by decide)⟩
  · exact (h60.2.1 (10, 0) (by decide) (by decide)).1
  · exact (h60.2.1 (10, 0) (by decide) (by decide)).2.2

/-- C9: the snapshot enumerations `items()` and `values()` are total
functions (no exception can escape: each per-key lookup's `KeyError` is
caught) and return exactly the fresh entries, in order, silently omitting
every entry found expired at enumeration time; if every entry is expired
they return the empty list. -/
theorem items_values_filter (d : EDict K V) (now : Int)
    (hnd : (d.entries.map Prod.fst).Nodup) :
    (items d now).1 = freshPairs now d.max_age d.entries ∧
    (values d now).1 = (freshPairs now d.max_age d.entries).map Prod.snd ∧
    ((∀ e ∈ d.entries, d.max_age ≤ now - e.2.2) →
       (items d now).1 = [] ∧ (values d now).1 = []) := by
  obtain ⟨l, a, m⟩ := d
  simp only at hnd
  have h1 := itemsGo_eq now a m l hnd
  have hitems : (items { entries := l, max_age := a, max_len := m } now).1 =
      freshPairs now a l := by
    show (itemsGo now (l.map Prod.fst) _).1 = _
    rw [h1]
  have hvalues : (values { entries := l, max_age := a, max_len := m } now).1 =
      (freshPairs now a l).map Prod.snd := by
    show (valuesGo now (l.map Prod.fst) _).1 = _
    rw [valuesGo_eq_itemsGo, h1]
  refine ⟨hitems, hvalues, ?_⟩
  intro hexp
  simp only at hexp
  have hempty : freshPairs now a l = [] := by
    rw [freshPairs, List.filterMap_eq_nil_iff]
    intro e he
    have := hexp e he
    rw [if_neg (by omega)]
  rw [hitems, hvalues, hempty]
  exact ⟨rfl, rfl⟩

/-- Witness for C9: a map with one fresh and two expired entries at time
61 enumerates exactly the fresh pair; a map with only expired entries
enumerates nothing. -/
theorem items_values_filter_witness :
    (items ({ entries := [(1, 10, 0), (2, 20, 50), (3, 30, 1)], max_age := 60, max_len := none } : EDict Nat Nat) 61).1 = [(2, 20)] ∧
    (values ({ entries := [(1, 10, 0), (2, 20, 50), (3, 30, 1)], max_age := 60, max_len := none } : EDict Nat Nat) 61).1 = [20] ∧
    (items ({ entries := [(1, 10, 0), (3, 30, 1)], max_age := 60, max_len := none } : EDict Nat Nat) 61).1 = [] := by
  have h := items_values_filter ({ entries := [(1, 10, 0), (2, 20, 50), (3, 30, 1)], max_age := 60, max_len := none } : EDict Nat Nat) 61 (by decide)
  have h2 := items_values_filter ({ entries := [(1, 10, 0), (3, 30, 1)], max_age := 60, max_len := none } : EDict Nat Nat) 61 (by decide)
  refine ⟨?_, ?_, (h2.2.2 (by decide)).1⟩
  · rw [h.1]; decide
  · rw [h.2.1]; decide

/-- C10: when the key is absent, or present but expired, `get` returns
`(default, None)` when called with `with_age=True` and the bare `default`
when called without — the shape of the not-found result is decided solely
by the `with_age` flag. -/
theorem get_not_found_shape (d : EDict K V) (k : K) (default : Option V)
    (now : Int)
    (h : od_getitem d.entries k = none ∨
         ∃ p, od_getitem d.entries k = some p ∧ d.max_age ≤ now - p.2) :
    (get d k default true now).1 = GetResult.withAge default none ∧
    (get d k default false now).1 = GetResult.bare default := by
  have hg : (getitem d k now).1 = none := by
    rcases h with h | ⟨p, hp, hexp⟩
    · simp [getitem, h]
    · have hnf : ¬ (now - p.2 < d.max_age) := by omega
      simp [getitem, hp, hnf]
  cases hG : getitem d k now with
  | mk r d2 =>
      rw [hG] at hg
      simp only at hg
      subst hg
      constructor
      · simp [get, hG]
      · simp [get, hG]

/-- Witness for C10: with default 7, the absent key 9 and the expired key
1 both produce `(7, None)` under `with_age=True` and the bare `7`
without. -/
theorem get_not_found_shape_witness :
    (get ({ entries := [(1, 10, 0)], max_age := 60, max_len := none } : EDict Nat Nat) 9 (some 7) true 61).1 = GetResult.withAge (some 7) none ∧
    (get ({ entries := [(1, 10, 0)], max_age := 60, max_len := none } : EDict Nat Nat) 1 (some 7) false 61).1 = GetResult.bare (some 7) := by
  have h9 := get_not_found_shape ({ entries := [(1, 10, 0)], max_age := 60, max_len := none } : EDict Nat Nat) 9 (some 7) 61 (Or.inl (by decide))
  have h1 := get_not_found_shape ({ entries := [(1, 10, 0)], max_age := 60, max_len := none } : EDict Nat Nat) 1 (some 7) 61 (Or.inr ⟨(10, 0), by decide, by decide⟩)
  exact ⟨h9.1, h1.2⟩

end ExpDict
